import Mathlib

/-!
# ADMET & Docking Prioritizer — shallow embedding of the core pipeline

This file embeds the core logic of `src/admet_docking_prioritizer.py`
(lines 59-130 and the summary counts at lines 155-156) and proves the
specification claims about it.

Modelling conventions:
* Python floats (docking scores, MW, LogP) are modelled as `Rat`.
* RDKit (`Chem.MolFromSmiles` plus the four `Descriptors` calls) is an
  external library; it is modelled as an oracle parameter
  `chem : String → Option DescriptorSet`, returning `none` exactly when
  `MolFromSmiles` returns `None`.
* pandas DataFrames are modelled as lists of records.  The two-key
  `sort_values` at line 126 is implemented by pandas with `np.lexsort`,
  which is stable, and is modelled by a stable sort
  (`List.insertionSort`) with the same key.  The single-key
  `sort_values` at line 119 uses the default `kind="quicksort"`, which
  pandas documents as non-stable: the program leaves the relative order
  of equal docking scores unspecified.  An executable model must still
  pick one concrete order, and this file picks a stable sort as the
  representative; every theorem below about the pass block (its
  statuses, its rank sequence `1..k`, its non-decreasing scores, its
  placement before the fail block) holds for any score-sorted
  permutation, so no theorem in this file depends on that choice.  The
  tie-break order itself is left unverified, being an implementation
  detail of the external numpy sort.
* The `Final_Rank` column mixes integers (pass rows) with the string `-`
  (fail rows); pandas orders such mixed columns numbers-before-strings
  (`safe_sort` / `_sort_mixed`), so the rank key is `Option Nat` with
  `none` (the `-` marker) sorting after every number.  This detail never
  influences the final order, because rows of equal status either all
  carry numeric ranks or all carry `-`.
-/

namespace ADMET

open scoped List

/-- The four RDKit descriptor values of a successfully parsed molecule
(lines 82-85: `MolWt`, `MolLogP`, `NumHDonors`, `NumHAcceptors`). -/
structure DescriptorSet where
  mw : Rat
  logp : Rat
  hDonors : Nat
  hAcceptors : Nat
deriving DecidableEq

/-- One input row of the table: the `SMILES` and `Docking_Score` columns
(lines 63-64). -/
structure Row where
  smiles : String
  dockingScore : Rat
deriving DecidableEq

/-- The external cheminformatics library: parsing plus descriptor
computation.  `none` models `Chem.MolFromSmiles` returning `None`. -/
abbrev Chem := String → Option DescriptorSet

/-- Python `round(x, 2)` (lines 103-104).  Python rounds half to even;
this model rounds half away from the floor, which agrees with Python
everywhere except exact half-way points, and no claim depends on those. -/
def round2 (q : Rat) : Rat := ((q * 100 + 1 / 2).floor : Rat) / 100

/-- One entry of the `results` list (the dicts built at lines 71-76 and
98-107).  Descriptor fields are `none` for an unparsable SMILES. -/
structure Record where
  smiles : String
  dockingScore : Rat
  status : String
  mw : Option Rat
  logp : Option Rat
  hDonors : Option Nat
  hAcceptors : Option Nat
  violations : Option Nat
deriving DecidableEq

/-- Lipinski violation count (lines 88-92). -/
def violations (d : DescriptorSet) : Nat :=
  (if d.mw > 500 then 1 else 0) + (if d.logp > 5 then 1 else 0) +
    (if d.hDonors > 5 then 1 else 0) + (if d.hAcceptors > 10 then 1 else 0)

/-- `is_drug_like = (violations <= 1)` (line 94). -/
def is_drug_like (d : DescriptorSet) : Bool := violations d ≤ 1

/-- One iteration of the `for index, row in df_input.iterrows()` loop
(lines 62-107): parse, compute descriptors, apply the filter, and build
the result record.  An unparsable SMILES yields the `Invalid SMILES`
record of lines 71-76 and the loop continues. -/
def evalRow (chem : Chem) (row : Row) : Record :=
  match chem row.smiles with
  | none =>
      { smiles := row.smiles, dockingScore := row.dockingScore,
        status := "Invalid SMILES",
        mw := none, logp := none, hDonors := none, hAcceptors := none,
        violations := none }
  | some d =>
      { smiles := row.smiles, dockingScore := row.dockingScore,
        status := if is_drug_like d then "Pass" else "Fail (Lipinski Violation)",
        mw := some (round2 d.mw), logp := some (round2 d.logp),
        hDonors := some d.hDonors, hAcceptors := some d.hAcceptors,
        violations := some (violations d) }

/-- The full `results` list (lines 60-107), one record per input row in
input order. -/
def results (chem : Chem) (inputs : List Row) : List Record :=
  inputs.map (evalRow chem)

/-- `df_pass = df_results[df_results["Status"] == "Pass"]` (line 115). -/
def df_pass (rs : List Record) : List Record :=
  rs.filter (fun r => r.status == "Pass")

/-- `df_fail = df_results[df_results["Status"] != "Pass"]` (line 116). -/
def df_fail (rs : List Record) : List Record :=
  rs.filter (fun r => r.status != "Pass")

/-- The key of `df_pass.sort_values(by="Docking_Score", ascending=True)`
(line 119). -/
def scoreR (a b : Record) : Prop := a.dockingScore ≤ b.dockingScore

instance : DecidableRel scoreR := fun a b =>
  inferInstanceAs (Decidable (a.dockingScore ≤ b.dockingScore))

instance : IsTotal Record scoreR := ⟨fun a b => le_total a.dockingScore b.dockingScore⟩

instance : IsTrans Record scoreR := ⟨fun _ _ _ h h' => le_trans h h'⟩

/-- The pass subset sorted by docking score ascending (line 119).  The
source uses `sort_values` with the default `kind="quicksort"`, whose
order on equal scores is unspecified (pandas documents only
`mergesort`/`stable` as stable); the model picks a stable sort as one
concrete score-sorted permutation.  No theorem in this file relies on
the order of equal scores. -/
def sortedPass (rs : List Record) : List Record :=
  List.insertionSort scoreR (df_pass rs)

/-- A row of the final frame: the record together with its `Final_Rank`
column value.  `some n` models an integer rank, `none` models the string
`-` written for unranked rows (line 123). -/
structure RRecord where
  record : Record
  rank : Option Nat
deriving DecidableEq

/-- `df_pass["Final_Rank"] = range(1, len(df_pass) + 1)` (line 120):
consecutive ranks starting at `n` down the list. -/
def assignRanks (n : Nat) : List Record → List RRecord
  | [] => []
  | r :: rs => ⟨r, some n⟩ :: assignRanks (n + 1) rs

/-- The ranked pass frame (lines 119-120). -/
def df_pass_ranked (rs : List Record) : List RRecord :=
  assignRanks 1 (sortedPass rs)

/-- The fail frame with `Final_Rank = "-"` (line 123). -/
def df_fail_ranked (rs : List Record) : List RRecord :=
  (df_fail rs).map (fun r => ⟨r, none⟩)

/-- Ordering of the mixed `Final_Rank` column: numeric ranks ascend and
compare below the string `-` (pandas orders numbers before strings when
sorting a mixed object column). -/
def rankLE : Option Nat → Option Nat → Bool
  | some m, some n => m ≤ n
  | some _, none => true
  | none, some _ => false
  | none, none => true

/-- Lexicographic (code point) order on character lists; a proper prefix
compares below its extensions.  This is the order numpy uses when
sorting a string column. -/
def charListLT : List Char → List Char → Bool
  | _, [] => false
  | [], _ :: _ => true
  | a :: as, b :: bs => decide (a < b) || (decide (a = b) && charListLT as bs)

/-- Lexicographic order on the status strings, as numpy compares them. -/
def strLT (s t : String) : Bool := charListLT s.data t.data


/-- The key of `sort_values(by=["Status", "Final_Rank"],
ascending=[False, True])` (lines 126-128): status string descending,
then rank ascending. -/
def finalR (a b : RRecord) : Prop :=
  if a.record.status = b.record.status then rankLE a.rank b.rank = true
  else strLT b.record.status a.record.status = true

instance : DecidableRel finalR := fun a b => by
  unfold finalR; infer_instance

/-- `df_final` (lines 126-128): concatenate the ranked pass frame and the
fail frame, then stably sort by status descending, rank ascending. -/
def df_final (rs : List Record) : List RRecord :=
  List.insertionSort finalR (df_pass_ranked rs ++ df_fail_ranked rs)

/-- Whether the character list `needle` is a prefix of `hay`. -/
def isPrefixB : List Char → List Char → Bool
  | [], _ => true
  | _ :: _, [] => false
  | a :: as, b :: bs => a == b && isPrefixB as bs

/-- Whether the character list `needle` occurs contiguously in `hay`. -/
def isInfixB (needle : List Char) : List Char → Bool
  | [] => needle.isEmpty
  | b :: bs => isPrefixB needle (b :: bs) || isInfixB needle bs

/-- `Series.str.contains("Fail")` on a status string (line 156); the
pattern has no regex metacharacters, so it is a substring test. -/
def containsFail (s : String) : Bool := isInfixB "Fail".data s.data

/-- `pass_count = (df_final["Status"] == "Pass").sum()` (line 155). -/
def pass_count (rs : List Record) : Nat :=
  (df_final rs).countP (fun rr => rr.record.status == "Pass")

/-- `fail_count = (df_final["Status"].str.contains("Fail")).sum()`
(line 156). -/
def fail_count (rs : List Record) : Nat :=
  (df_final rs).countP (fun rr => containsFail rr.record.status)

/-- The data handed to the presentation layer: the final frame and the
two summary counts. -/
structure Report where
  records : List RRecord
  passCount : Nat
  failCount : Nat
deriving DecidableEq

/-- The whole guarded analysis block (lines 50-181) from `df_input`
onward.  When the input has zero rows, `results` is empty and
`pd.DataFrame(results)` is a frame with no columns at all, so the column
access `df_results["Status"]` at line 115 raises `KeyError`; the outer
`except Exception` (lines 180-181) turns this into a run-level error
message and no report is produced.  With at least one row every column
exists and the run returns the report. -/
def run (chem : Chem) (inputs : List Row) : Except String Report :=
  if (results chem inputs).isEmpty then
    Except.error "An error occurred during data processing: KeyError: Status"
  else
    Except.ok
      { records := df_final (results chem inputs),
        passCount := pass_count (results chem inputs),
        failCount := fail_count (results chem inputs) }

/-- Whether a run produced a report (no run-level error). -/
def runOk : Except String Report → Bool
  | Except.ok _ => true
  | Except.error _ => false

/-! ## Concrete oracles and inputs used by witnesses and counterexamples -/

/-- An oracle on which no string parses. -/
def chemNone : Chem := fun _ => none

/-- An oracle with two drug-like molecules `A`, `B` (equal descriptor
sets), one heavily violating molecule `bigmol`, and nothing else. -/
def chemEx : Chem := fun s =>
  if s = "A" then some ⟨100, 1, 1, 1⟩
  else if s = "B" then some ⟨100, 1, 1, 1⟩
  else if s = "bigmol" then some ⟨600, 6, 6, 12⟩
  else none

def rowInv : Row := ⟨"InvalidSMILES", -8⟩

def rowBig : Row := ⟨"bigmol", -5⟩

/-- The report the run produces on the single unparsable row `rowInv`. -/
def rptInv : Report :=
  { records := [⟨evalRow chemNone rowInv, none⟩], passCount := 0, failCount := 0 }

/-! ## Order facts for the sort keys -/

theorem charListLT_irrefl : ∀ l : List Char, charListLT l l = false
  | [] => rfl
  | a :: as => by simp [charListLT, charListLT_irrefl as]

theorem charListLT_trans : ∀ l m n : List Char,
    charListLT l m = true → charListLT m n = true → charListLT l n = true
  | _, _, [], _, h2 => by simp [charListLT] at h2
  | l, [], b :: bs, h1, _ => by cases l <;> simp [charListLT] at h1 ⊢
  | [], a :: as, b :: bs, _, _ => by simp [charListLT]
  | x :: xs, a :: as, b :: bs, h1, h2 => by
    simp only [charListLT, Bool.or_eq_true, Bool.and_eq_true, decide_eq_true_eq] at h1 h2 ⊢
    rcases h1 with h1 | ⟨h1e, h1t⟩ <;> rcases h2 with h2 | ⟨h2e, h2t⟩
    · exact Or.inl (lt_trans h1 h2)
    · exact Or.inl (h2e ▸ h1)
    · exact Or.inl (h1e ▸ h2)
    · exact Or.inr ⟨h1e.trans h2e, charListLT_trans xs as bs h1t h2t⟩

theorem charListLT_total : ∀ l m : List Char,
    l ≠ m → charListLT l m = true ∨ charListLT m l = true
  | [], [], h => absurd rfl h
  | [], _ :: _, _ => Or.inl (by simp [charListLT])
  | _ :: _, [], _ => Or.inr (by simp [charListLT])
  | a :: as, b :: bs, h => by
    rcases eq_or_ne a b with hab | hab
    · subst hab
      have hne : as ≠ bs := fun hh => h (hh ▸ rfl)
      rcases charListLT_total as bs hne with ht | ht
      · exact Or.inl (by simp [charListLT, ht])
      · exact Or.inr (by simp [charListLT, ht])
    · rcases Ne.lt_or_lt hab with hlt | hlt
      · exact Or.inl (by simp [charListLT, hlt])
      · exact Or.inr (by simp [charListLT, hlt])

theorem strLT_irrefl (s : String) : strLT s s = false := charListLT_irrefl s.data

theorem strLT_trans {s t u : String} (h1 : strLT s t = true) (h2 : strLT t u = true) :
    strLT s u = true := charListLT_trans s.data t.data u.data h1 h2

theorem strLT_total {s t : String} (h : s ≠ t) : strLT s t = true ∨ strLT t s = true :=
  charListLT_total s.data t.data (fun hd => h (by cases s; cases t; exact congrArg String.mk hd))

instance : IsTotal RRecord finalR :=
  ⟨fun a b => by
    unfold finalR
    rcases eq_or_ne a.record.status b.record.status with h | h
    · rw [if_pos h, if_pos h.symm]
      cases ha : a.rank <;> cases hb : b.rank <;> simp [rankLE] <;> omega
    · rw [if_neg h, if_neg (Ne.symm h)]
      exact (strLT_total h).symm⟩

instance : IsTrans RRecord finalR :=
  ⟨fun a b c hab hbc => by
    unfold finalR at *
    by_cases h1 : a.record.status = b.record.status <;>
      by_cases h2 : b.record.status = c.record.status
    · rw [if_pos h1] at hab
      rw [if_pos h2] at hbc
      rw [if_pos (h1.trans h2)]
      cases ha : a.rank <;> cases hb : b.rank <;> cases hc : c.rank <;>
        simp_all [rankLE] <;> omega
    · rw [if_pos h1] at hab
      rw [if_neg h2] at hbc
      rw [if_neg (fun h => h2 (h1.symm.trans h)), h1]
      exact hbc
    · rw [if_neg h1] at hab
      rw [if_pos h2] at hbc
      rw [if_neg (fun h => h1 (h.trans h2.symm)), ← h2]
      exact hab
    · rw [if_neg h1] at hab
      rw [if_neg h2] at hbc
      have hca : strLT c.record.status a.record.status = true := strLT_trans hbc hab
      have hac : a.record.status ≠ c.record.status := by
        intro h
        rw [h] at hca
        rw [strLT_irrefl] at hca
        exact Bool.false_ne_true hca
      rw [if_neg hac]
      exact hca⟩

/-! ## Facts about single records -/

theorem evalRow_status_cases (chem : Chem) (row : Row) :
    (evalRow chem row).status = "Pass" ∨
      (evalRow chem row).status = "Fail (Lipinski Violation)" ∨
      (evalRow chem row).status = "Invalid SMILES" := by
  unfold evalRow
  cases chem row.smiles with
  | none => simp
  | some d => by_cases h : is_drug_like d <;> simp [h]

theorem mem_results_status (chem : Chem) (inputs : List Row) (r : Record)
    (h : r ∈ results chem inputs) :
    r.status = "Pass" ∨ r.status = "Fail (Lipinski Violation)" ∨
      r.status = "Invalid SMILES" := by
  obtain ⟨row, _, rfl⟩ := List.mem_map.mp h
  exact evalRow_status_cases chem row

theorem evalRow_invariant (chem : Chem) (row : Row) :
    (evalRow chem row).status = "Pass" ↔
      ((evalRow chem row).mw ≠ none ∧ (evalRow chem row).logp ≠ none ∧
        (evalRow chem row).hDonors ≠ none ∧ (evalRow chem row).hAcceptors ≠ none) ∧
        ∃ v, (evalRow chem row).violations = some v ∧ v ≤ 1 := by
  unfold evalRow
  cases chem row.smiles with
  | none => simp
  | some d =>
    by_cases h : is_drug_like d
    · simp only [h, if_pos]
      simp only [is_drug_like, decide_eq_true_eq] at h
      simp [h]
    · simp only [h, if_neg]
      have h2 : ¬ violations d ≤ 1 := by
        simpa [is_drug_like] using h
      simp [h2]

/-! ## Facts about the partition and the ranked frames -/

theorem mem_df_pass_status {rs : List Record} {r : Record} (h : r ∈ df_pass rs) :
    r.status = "Pass" := by
  have := (List.mem_filter.mp h).2
  simpa using this

theorem mem_df_fail_status {rs : List Record} {r : Record} (h : r ∈ df_fail rs) :
    r.status ≠ "Pass" := by
  have := (List.mem_filter.mp h).2
  simpa using this

theorem mem_sortedPass_status {rs : List Record} {r : Record} (h : r ∈ sortedPass rs) :
    r.status = "Pass" :=
  mem_df_pass_status ((List.mem_insertionSort scoreR).mp h)

theorem mem_assignRanks {rr : RRecord} : ∀ {n : Nat} {l : List Record},
    rr ∈ assignRanks n l → rr.record ∈ l ∧ ∃ m, rr.rank = some m ∧ n ≤ m := by
  intro n l
  induction l generalizing n with
  | nil => intro h; cases h
  | cons r rs ih =>
    intro h
    simp only [assignRanks] at h
    cases h with
    | head => exact ⟨List.mem_cons_self r rs, n, rfl, Nat.le_refl n⟩
    | tail _ h =>
      obtain ⟨hm, m, hr, hnm⟩ := ih h
      exact ⟨List.mem_cons_of_mem r hm, m, hr, Nat.le_of_succ_le hnm⟩

theorem assignRanks_map_record : ∀ (n : Nat) (l : List Record),
    (assignRanks n l).map RRecord.record = l
  | _, [] => rfl
  | n, r :: rs => by simp [assignRanks, assignRanks_map_record (n + 1) rs]

theorem assignRanks_map_rank : ∀ (n : Nat) (l : List Record),
    (assignRanks n l).map RRecord.rank = (List.range' n l.length).map some
  | _, [] => rfl
  | n, r :: rs => by
    simp [assignRanks, List.range'_succ, assignRanks_map_rank (n + 1) rs]

theorem pairwise_assignRanks : ∀ (n : Nat) (l : List Record),
    (∀ r ∈ l, r.status = "Pass") → (assignRanks n l).Pairwise finalR
  | _, [], _ => List.Pairwise.nil
  | n, r :: rs, h => by
    refine List.Pairwise.cons ?head (pairwise_assignRanks (n + 1) rs ?tail)
    · intro rr hrr
      obtain ⟨hm, m, hrank, hnm⟩ := mem_assignRanks hrr
      have hs : (⟨r, some n⟩ : RRecord).record.status = rr.record.status := by
        show r.status = rr.record.status
        rw [h r (List.mem_cons_self r rs), h rr.record (List.mem_cons_of_mem r hm)]
      unfold finalR
      rw [if_pos hs, hrank]
      show rankLE (some n) (some m) = true
      simp [rankLE]
      omega
    · exact fun r hr => h r (List.mem_cons_of_mem _ hr)

theorem pairwise_df_pass_ranked (rs : List Record) : (df_pass_ranked rs).Pairwise finalR :=
  pairwise_assignRanks 1 (sortedPass rs) (fun _ h => mem_sortedPass_status h)
/-! ## The final frame: permutation, order, and filters -/

theorem df_final_perm (rs : List Record) :
    df_final rs ~ df_pass_ranked rs ++ df_fail_ranked rs :=
  List.perm_insertionSort finalR _

theorem df_final_pairwise (rs : List Record) : (df_final rs).Pairwise finalR :=
  List.sorted_insertionSort finalR _

theorem mem_df_final {rs : List Record} {rr : RRecord} (h : rr ∈ df_final rs) :
    rr.record ∈ rs ∧
      ((rr.record.status = "Pass" ∧ ∃ n, rr.rank = some n) ∨
        (rr.record.status ≠ "Pass" ∧ rr.rank = none)) := by
  have h2 : rr ∈ df_pass_ranked rs ++ df_fail_ranked rs := (df_final_perm rs).mem_iff.mp h
  rcases List.mem_append.mp h2 with h3 | h3
  · obtain ⟨hm, m, hrank, -⟩ := mem_assignRanks h3
    have hst : rr.record.status = "Pass" := mem_sortedPass_status hm
    have hmem : rr.record ∈ rs :=
      List.Sublist.mem ((List.mem_insertionSort scoreR).mp hm) (List.filter_sublist rs)
    exact ⟨hmem, Or.inl ⟨hst, m, hrank⟩⟩
  · obtain ⟨r, hr, rfl⟩ := List.mem_map.mp h3
    exact ⟨List.Sublist.mem hr (List.filter_sublist rs), Or.inr ⟨mem_df_fail_status hr, rfl⟩⟩

theorem filter_df_final (rs : List Record) (p : RRecord → Bool)
    (h : ((df_pass_ranked rs ++ df_fail_ranked rs).filter p).Pairwise finalR) :
    (df_final rs).filter p = (df_pass_ranked rs ++ df_fail_ranked rs).filter p := by
  have h1 : (df_pass_ranked rs ++ df_fail_ranked rs).filter p <+ df_final rs :=
    List.sublist_insertionSort h (List.filter_sublist _)
  have hself : ((df_pass_ranked rs ++ df_fail_ranked rs).filter p).filter p
      = (df_pass_ranked rs ++ df_fail_ranked rs).filter p :=
    List.filter_eq_self.mpr (fun a ha => (List.mem_filter.mp ha).2)
  have h2 : (df_pass_ranked rs ++ df_fail_ranked rs).filter p <+ (df_final rs).filter p := by
    have h3 := h1.filter p
    rwa [hself] at h3
  have h4 : ((df_pass_ranked rs ++ df_fail_ranked rs).filter p).length
      = ((df_final rs).filter p).length :=
    (((df_final_perm rs).filter p).length_eq).symm
  exact (h2.eq_of_length h4).symm

theorem filter_concat_pass (rs : List Record) :
    (df_pass_ranked rs ++ df_fail_ranked rs).filter (fun rr => rr.record.status == "Pass")
      = df_pass_ranked rs := by
  rw [List.filter_append]
  have h1 : (df_pass_ranked rs).filter (fun rr => rr.record.status == "Pass")
      = df_pass_ranked rs := by
    refine List.filter_eq_self.mpr (fun rr hrr => ?side1)
    obtain ⟨hm, -⟩ := mem_assignRanks hrr
    simpa using mem_sortedPass_status hm
  have h2 : (df_fail_ranked rs).filter (fun rr => rr.record.status == "Pass") = [] := by
    refine List.filter_eq_nil_iff.mpr (fun rr hrr => ?side2)
    obtain ⟨r, hr, rfl⟩ := List.mem_map.mp hrr
    simpa using mem_df_fail_status hr
  rw [h1, h2, List.append_nil]

theorem filter_concat_status (rs : List Record) (s : String) (hs : s ≠ "Pass") :
    (df_pass_ranked rs ++ df_fail_ranked rs).filter (fun rr => rr.record.status == s)
      = (rs.filter (fun r => r.status == s)).map (fun r => (⟨r, none⟩ : RRecord)) := by
  rw [List.filter_append]
  have h1 : (df_pass_ranked rs).filter (fun rr => rr.record.status == s) = [] := by
    refine List.filter_eq_nil_iff.mpr (fun rr hrr => ?side1)
    obtain ⟨hm, -⟩ := mem_assignRanks hrr
    have hp := mem_sortedPass_status hm
    simp [hp, Ne.symm hs]
  have h2 : (df_fail_ranked rs).filter (fun rr => rr.record.status == s)
      = (rs.filter (fun r => r.status == s)).map (fun r => (⟨r, none⟩ : RRecord)) := by
    unfold df_fail_ranked df_fail
    rw [List.filter_map, List.filter_filter]
    have hcongr : ∀ r ∈ rs,
        (((fun rr : RRecord => rr.record.status == s) ∘ fun r => (⟨r, none⟩ : RRecord)) r
          && (r.status != "Pass"))
        = (r.status == s) := by
      intro r _
      by_cases hrs : r.status = s <;> simp [Function.comp, hrs, hs]
    rw [List.filter_congr hcongr]
  rw [h1, h2, List.nil_append]

theorem pairwise_const_fail (l : List Record) (s : String)
    (hall : ∀ r ∈ l, r.status = s) :
    (l.map (fun r => (⟨r, none⟩ : RRecord))).Pairwise finalR := by
  refine List.pairwise_of_forall_mem_list ?f
  intro a ha b hb
  obtain ⟨ra, hra, rfl⟩ := List.mem_map.mp ha
  obtain ⟨rb, hrb, rfl⟩ := List.mem_map.mp hb
  have hs : (⟨ra, none⟩ : RRecord).record.status = (⟨rb, none⟩ : RRecord).record.status := by
    show ra.status = rb.status
    rw [hall ra hra, hall rb hrb]
  unfold finalR
  rw [if_pos hs]
  rfl

theorem assignRanks_map_score : ∀ (n : Nat) (l : List Record),
    (assignRanks n l).map (fun rr => rr.record.dockingScore) = l.map Record.dockingScore
  | _, [] => rfl
  | n, r :: rs => by simp [assignRanks, assignRanks_map_score (n + 1) rs]

/-! ## Claim theorems -/

/-- C1 (counterexample): a single unparsable row yields exactly one record,
with the FailUnparsable status label `Invalid SMILES`, yet the computed
`fail_count` is `0`, not `1` — the unparsable row does not contribute to
`failCount`, contrary to the claim. -/
theorem unparsable_not_counted_in_fail_count :
    (results chemNone [rowInv]).map Record.status = ["Invalid SMILES"]
      ∧ fail_count (results chemNone [rowInv]) = 0 :=
  ⟨rfl, rfl⟩

/-- C1 (amended): for every run that returns a report, the reported
`failCount` equals the number of records whose status is exactly
`Fail (Lipinski Violation)`; `Invalid SMILES` records are not counted,
because the status filter `str.contains("Fail")` does not match the
string `Invalid SMILES`. -/
theorem fail_count_counts_only_lipinski (chem : Chem) (inputs : List Row) (rpt : Report)
    (h : run chem inputs = Except.ok rpt) :
    rpt.failCount
      = rpt.records.countP (fun rr => rr.record.status == "Fail (Lipinski Violation)") := by
  unfold run at h
  split at h
  · cases h
  · injection h with h2
    subst h2
    dsimp only
    unfold fail_count
    refine List.countP_congr ?f
    intro rr hmem
    rcases mem_results_status _ _ _ (mem_df_final hmem).1 with h4 | h4 | h4 <;>
      rw [h4] <;> exact (by decide)

/-- C1 (witness for the amended theorem): concrete instantiation on the
single unparsable row. -/
theorem fail_count_counts_only_lipinski_witness :
    run chemNone [rowInv] = Except.ok rptInv
      ∧ rptInv.failCount
        = rptInv.records.countP (fun rr => rr.record.status == "Fail (Lipinski Violation)") :=
  ⟨rfl, fail_count_counts_only_lipinski chemNone [rowInv] rptInv rfl⟩

/-- C2 (counterexample): with input order [Lipinski-fail row, unparsable
row], the final report lists the unparsable record first — the non-Pass
records do not keep their input relative order, because the final sort
orders the status strings descending and `Invalid SMILES` is
lexicographically greater than `Fail (Lipinski Violation)`. -/
theorem fail_block_reorders_on_example :
    (results chemEx [rowBig, rowInv]).map Record.status
      = ["Fail (Lipinski Violation)", "Invalid SMILES"]
      ∧ (df_final (results chemEx [rowBig, rowInv])).map (fun rr => rr.record.status)
        = ["Invalid SMILES", "Fail (Lipinski Violation)"] :=
  ⟨rfl, rfl⟩

/-- C2 (amended): every non-Pass record of the final report has a null
rank, and the non-Pass records of each single status keep their input
relative order (the `Invalid SMILES` records, among themselves, appear
in input order, and likewise the `Fail (Lipinski Violation)` records),
but the two groups are separated, all invalid records before all
Lipinski-fail records. -/
theorem fail_records_keep_order_within_status (chem : Chem) (inputs : List Row) :
    ((df_final (results chem inputs)).filter (fun rr => rr.record.status == "Invalid SMILES")
        = ((results chem inputs).filter (fun r => r.status == "Invalid SMILES")).map
            (fun r => (⟨r, none⟩ : RRecord)))
      ∧ ((df_final (results chem inputs)).filter
            (fun rr => rr.record.status == "Fail (Lipinski Violation)")
          = ((results chem inputs).filter
              (fun r => r.status == "Fail (Lipinski Violation)")).map
              (fun r => (⟨r, none⟩ : RRecord)))
      ∧ ((df_final (results chem inputs)).filter (fun rr => rr.record.status != "Pass")).all
          (fun rr => rr.rank == none) = true := by
  have key : ∀ s : String, s ≠ "Pass" →
      (df_final (results chem inputs)).filter (fun rr => rr.record.status == s)
        = ((results chem inputs).filter (fun r => r.status == s)).map
            (fun r => (⟨r, none⟩ : RRecord)) := by
    intro s hs
    have hp : (((df_pass_ranked (results chem inputs)
        ++ df_fail_ranked (results chem inputs))).filter
          (fun rr => rr.record.status == s)).Pairwise finalR := by
      rw [filter_concat_status _ s hs]
      exact pairwise_const_fail _ s (fun r hr => by simpa using (List.mem_filter.mp hr).2)
    rw [filter_df_final _ _ hp, filter_concat_status _ s hs]
  refine ⟨key _ (by decide), key _ (by decide), ?all⟩
  rw [List.all_eq_true]
  intro rr hrr
  obtain ⟨hmem, hne⟩ := List.mem_filter.mp hrr
  rcases (mem_df_final hmem).2 with ⟨hst, -⟩ | ⟨-, hrank⟩
  · rw [hst] at hne
    exact absurd hne (by decide)
  · simp [hrank]

/-- C4: on a zero-row input table (with the correct columns) the run does
not return an empty report: `pd.DataFrame([])` has no columns, the
`Status` column access raises `KeyError`, and the outer handler reports
a run-level error.  The claimed empty report with zero counts is not
produced. -/
theorem empty_input_run_error (chem : Chem) :
    run chem []
      = Except.error "An error occurred during data processing: KeyError: Status" :=
  rfl

/-- C9: a row whose notation fails to parse yields exactly one record,
with status `Invalid SMILES`, all four descriptor fields null and null
violation count; the surrounding rows are processed as usual, the run
still returns a report (no exception), and every `Invalid SMILES` record
of the final report carries a null rank. -/
theorem unparsable_row_yields_single_record (chem : Chem) (pre post : List Row) (row : Row)
    (h : chem row.smiles = none) :
    results chem (pre ++ row :: post)
      = results chem pre
        ++ ({ smiles := row.smiles, dockingScore := row.dockingScore,
              status := "Invalid SMILES", mw := none, logp := none,
              hDonors := none, hAcceptors := none, violations := none } : Record)
          :: results chem post
      ∧ runOk (run chem (pre ++ row :: post)) = true
      ∧ ((df_final (results chem (pre ++ row :: post))).filter
            (fun rr => rr.record.status == "Invalid SMILES")).all
          (fun rr => rr.rank == none) = true := by
  have hrow : evalRow chem row
      = { smiles := row.smiles, dockingScore := row.dockingScore,
          status := "Invalid SMILES", mw := none, logp := none,
          hDonors := none, hAcceptors := none, violations := none } := by
    unfold evalRow
    rw [h]
  refine ⟨?one, ?ok, ?norank⟩
  · simp [results, hrow]
  · have hne : (results chem (pre ++ row :: post)).isEmpty = false := by
      simp [results]
    unfold run
    rw [hne]
    rfl
  · rw [List.all_eq_true]
    intro rr hrr
    obtain ⟨hmem, hsval⟩ := List.mem_filter.mp hrr
    rcases (mem_df_final hmem).2 with ⟨hst, -⟩ | ⟨-, hrank⟩
    · rw [hst] at hsval
      exact absurd hsval (by decide)
    · simp [hrank]

/-- C9 (witness): concrete instantiation on the single unparsable row. -/
theorem unparsable_row_yields_single_record_witness :
    chemNone rowInv.smiles = none
      ∧ (results chemNone ([] ++ rowInv :: [])
          = results chemNone []
            ++ ({ smiles := rowInv.smiles, dockingScore := rowInv.dockingScore,
                  status := "Invalid SMILES", mw := none, logp := none,
                  hDonors := none, hAcceptors := none, violations := none } : Record)
              :: results chemNone []
          ∧ runOk (run chemNone ([] ++ rowInv :: [])) = true
          ∧ ((df_final (results chemNone ([] ++ rowInv :: []))).filter
                (fun rr => rr.record.status == "Invalid SMILES")).all
              (fun rr => rr.rank == none) = true) :=
  ⟨rfl, unparsable_row_yields_single_record chemNone [] [] rowInv rfl⟩

/-- C5: the final report is partitioned — whenever a record with status
`Pass` appears at some position, every earlier record also has status
`Pass`; no non-Pass record precedes a Pass record. -/
theorem pass_block_first (chem : Chem) (inputs : List Row) :
    (df_final (results chem inputs)).Pairwise
      (fun a b => b.record.status = "Pass" → a.record.status = "Pass") := by
  refine (df_final_pairwise (results chem inputs)).imp_of_mem ?f
  intro a b ha _ hfin hbp
  by_cases heq : a.record.status = b.record.status
  · rw [heq, hbp]
  · exfalso
    unfold finalR at hfin
    rw [if_neg heq, hbp] at hfin
    rcases mem_results_status _ _ _ (mem_df_final ha).1 with h3 | h3 | h3
    · exact heq (h3.trans hbp.symm)
    · rw [h3] at hfin
      exact absurd hfin (by decide)
    · rw [h3] at hfin
      exact absurd hfin (by decide)

/-- C6: the ranks of the Pass block of the final report are exactly
`1, 2, …, k` in order, where `k` is the number of Pass records, and the
docking scores of the Pass block are non-decreasing along that order
(rank 1 carries the lowest score). -/
theorem pass_ranks_contiguous_scores_sorted (chem : Chem) (inputs : List Row) :
    ((df_final (results chem inputs)).filter
        (fun rr => rr.record.status == "Pass")).map RRecord.rank
      = (List.range' 1 ((results chem inputs).countP (fun r => r.status == "Pass"))).map some
    ∧ (((df_final (results chem inputs)).filter
        (fun rr => rr.record.status == "Pass")).map
          (fun rr => rr.record.dockingScore)).Pairwise (fun a b => a ≤ b) := by
  have hfil : (df_final (results chem inputs)).filter (fun rr => rr.record.status == "Pass")
      = df_pass_ranked (results chem inputs) := by
    have hp : ((df_pass_ranked (results chem inputs)
        ++ df_fail_ranked (results chem inputs)).filter
          (fun rr => rr.record.status == "Pass")).Pairwise finalR := by
      rw [filter_concat_pass]
      exact pairwise_df_pass_ranked _
    rw [filter_df_final _ _ hp, filter_concat_pass]
  have hlen : (sortedPass (results chem inputs)).length
      = (results chem inputs).countP (fun r => r.status == "Pass") := by
    rw [sortedPass, List.length_insertionSort, df_pass, List.countP_eq_length_filter]
  constructor
  · rw [hfil, df_pass_ranked, assignRanks_map_rank, hlen]
  · rw [hfil, df_pass_ranked, assignRanks_map_score]
    rw [List.pairwise_map]
    exact List.sorted_insertionSort scoreR (df_pass (results chem inputs))

/-- C7: every record of the final report satisfies the invariant —
status is `Pass` exactly when the four descriptor fields are present and
the violation count is present and at most 1, and the rank is non-null
exactly when the status is `Pass`. -/
theorem record_invariant (chem : Chem) (inputs : List Row) (rr : RRecord)
    (h : rr ∈ df_final (results chem inputs)) :
    (rr.record.status = "Pass" ↔
        (rr.record.mw ≠ none ∧ rr.record.logp ≠ none ∧ rr.record.hDonors ≠ none ∧
          rr.record.hAcceptors ≠ none)
        ∧ ∃ v, rr.record.violations = some v ∧ v ≤ 1)
      ∧ (rr.rank ≠ none ↔ rr.record.status = "Pass") := by
  obtain ⟨hmem, hdisj⟩ := mem_df_final h
  obtain ⟨row, -, hrow⟩ := List.mem_map.mp hmem
  constructor
  · rw [← hrow]
    exact evalRow_invariant chem row
  · rcases hdisj with ⟨hst, n, hrank⟩ | ⟨hst, hrank⟩
    · constructor
      · intro _
        exact hst
      · intro _
        rw [hrank]
        simp
    · constructor
      · intro hne
        exact absurd hrank hne
      · intro hp
        exact absurd hp hst

/-- C7 (witness): concrete instantiation on the single unparsable row. -/
theorem record_invariant_witness :
    (⟨evalRow chemNone rowInv, none⟩ : RRecord) ∈ df_final (results chemNone [rowInv])
      ∧ ((⟨evalRow chemNone rowInv, none⟩ : RRecord).record.status = "Pass" ↔
          ((⟨evalRow chemNone rowInv, none⟩ : RRecord).record.mw ≠ none ∧
            (⟨evalRow chemNone rowInv, none⟩ : RRecord).record.logp ≠ none ∧
            (⟨evalRow chemNone rowInv, none⟩ : RRecord).record.hDonors ≠ none ∧
            (⟨evalRow chemNone rowInv, none⟩ : RRecord).record.hAcceptors ≠ none)
          ∧ ∃ v, (⟨evalRow chemNone rowInv, none⟩ : RRecord).record.violations = some v ∧ v ≤ 1)
      ∧ ((⟨evalRow chemNone rowInv, none⟩ : RRecord).rank ≠ none ↔
          (⟨evalRow chemNone rowInv, none⟩ : RRecord).record.status = "Pass") := by
  have hm : (⟨evalRow chemNone rowInv, none⟩ : RRecord) ∈ df_final (results chemNone [rowInv]) := by
    have he : df_final (results chemNone [rowInv]) = [⟨evalRow chemNone rowInv, none⟩] := rfl
    rw [he]
    exact List.mem_singleton.mpr rfl
  exact ⟨hm, record_invariant chemNone [rowInv] _ hm⟩

/-- C8: the violation count is the number of violated rules among
weight > 500, coefficient > 5, donors > 5, acceptors > 10, each
contributing at most one, so it lies in the range 0-4, and the verdict
is drug-like exactly when the count is at most 1. -/
theorem violations_count_rules (d : DescriptorSet) :
    violations d = List.countP id [decide (d.mw > 500), decide (d.logp > 5),
        decide (d.hDonors > 5), decide (d.hAcceptors > 10)]
      ∧ violations d ≤ 4
      ∧ (is_drug_like d = true ↔ violations d ≤ 1) := by
  refine ⟨?count, ?bound, ?verdict⟩
  · unfold violations
    by_cases h1 : d.mw > 500 <;> by_cases h2 : d.logp > 5 <;>
      by_cases h3 : d.hDonors > 5 <;> by_cases h4 : d.hAcceptors > 10 <;>
      simp [h1, h2, h3, h4, List.countP_cons]
  · unfold violations
    by_cases h1 : d.mw > 500 <;> by_cases h2 : d.logp > 5 <;>
      by_cases h3 : d.hDonors > 5 <;> by_cases h4 : d.hAcceptors > 10 <;>
      simp [h1, h2, h3, h4]
  · simp [is_drug_like]

/-- C10: in the final report no `Fail (Lipinski Violation)` record is
followed by an `Invalid SMILES` record — the descending sort of the
status strings puts every invalid record before every Lipinski-fail
record. -/
theorem invalid_before_lipinski_fail (chem : Chem) (inputs : List Row) :
    (df_final (results chem inputs)).Pairwise
      (fun a b => a.record.status = "Fail (Lipinski Violation)" →
        b.record.status ≠ "Invalid SMILES") := by
  refine (df_final_pairwise (results chem inputs)).imp ?f
  intro a b hfin ha hb
  unfold finalR at hfin
  rw [ha, hb] at hfin
  rw [if_neg (by decide)] at hfin
  exact absurd hfin (by decide)

end ADMET
